import Mathlib

/-!
# Verification of the Redis-stream event queue core

Shallow embedding of `redis_event_queue.py`, `redis_event_consumer.py` and
`redis_queue_manager.py` from the `infinite-agent-streams` repository, with
proofs of the specified properties.

The Redis stream storage is modelled exactly as the repository's own
`FakeRedis` test double models the real server: a map from stream key to an
ordered list of entries, entry ids `"n-0"` represented by their numeric part,
`xadd` appending with id `len + 1`, and `xread` returning entries whose id is
strictly greater than the supplied cursor.

Event payloads travel through the stream as JSON text (`event.json()` on
enqueue, `json.loads` on dequeue), so we embed a JSON value type together
with an executable serializer and parser.
-/

/-! ## JSON values -/

mutual

/-- A JSON value (numbers restricted to integers, as produced by the
event models used in this system). -/
inductive Json where
  | null : Json
  | bool (b : Bool) : Json
  | num (n : Int) : Json
  | str (s : List Char) : Json
  | arr (elems : JsonList) : Json
  | obj (fields : JsonFields) : Json
deriving DecidableEq

/-- A list of JSON values (array elements). -/
inductive JsonList where
  | nil : JsonList
  | cons (hd : Json) (tl : JsonList) : JsonList
deriving DecidableEq

/-- The fields of a JSON object, in insertion order. -/
inductive JsonFields where
  | nil : JsonFields
  | cons (key : List Char) (val : Json) (tl : JsonFields) : JsonFields
deriving DecidableEq

end

/-! ## Serialization (`json.dumps` / pydantic `.json()`) -/

/-- The decimal digit character for `d % 10`. -/
def digitChar (d : Nat) : Char :=
  Char.ofNat (48 + d % 10)

/-- Decimal digits of a natural number, most significant first. -/
def natToChars (n : Nat) : List Char :=
  if _h : n < 10 then [digitChar n]
  else natToChars (n / 10) ++ [digitChar (n % 10)]
  termination_by n
  decreasing_by
    exact Nat.div_lt_self (by omega) (by omega)

/-- Decimal rendering of an integer, with a leading minus sign when
negative. -/
def intToChars (n : Int) : List Char :=
  if n < 0 then '-' :: natToChars n.natAbs else natToChars n.natAbs

/-- JSON string escaping for one character: quotes and backslashes are
backslash-escaped, everything else is passed through. -/
def escapeChar (c : Char) : List Char :=
  if c = '"' ∨ c = '\\' then ['\\', c] else [c]

/-- JSON string escaping of a character sequence. -/
def escapeChars : List Char → List Char
  | [] => []
  | c :: cs => escapeChar c ++ escapeChars cs

mutual

/-- Serialize a JSON value to text (compact separators). -/
def dumpJson : Json → List Char
  | .null => "null".data
  | .bool true => "true".data
  | .bool false => "false".data
  | .num n => intToChars n
  | .str s => '"' :: (escapeChars s ++ ['"'])
  | .arr xs => '[' :: (dumpList xs ++ [']'])
  | .obj fs => '{' :: (dumpFields fs ++ ['}'])

/-- Serialize array elements, comma separated. -/
def dumpList : JsonList → List Char
  | .nil => []
  | .cons x tl => dumpJson x ++ dumpSepList tl

/-- Serialize the remaining array elements, each with a leading comma. -/
def dumpSepList : JsonList → List Char
  | .nil => []
  | .cons x tl => ',' :: (dumpJson x ++ dumpSepList tl)

/-- Serialize object fields, comma separated. -/
def dumpFields : JsonFields → List Char
  | .nil => []
  | .cons k v tl => '"' :: (escapeChars k ++ '"' :: ':' :: dumpJson v) ++ dumpSepFields tl

/-- Serialize the remaining object fields, each with a leading comma. -/
def dumpSepFields : JsonFields → List Char
  | .nil => []
  | .cons k v tl =>
    ',' :: ('"' :: (escapeChars k ++ '"' :: ':' :: dumpJson v) ++ dumpSepFields tl)

end

/-! ## Parsing (`json.loads`) -/

/-- Numeric value of a digit character. -/
def charVal (c : Char) : Nat := c.toNat - 48

/-- Split a character sequence into its maximal leading run of decimal
digits and the remainder. -/
def spanDigits : List Char → List Char × List Char
  | [] => ([], [])
  | c :: cs =>
    if c.isDigit then
      let p := spanDigits cs
      (c :: p.1, p.2)
    else ([], c :: cs)

/-- Numeric value of a digit sequence, most significant first. -/
def charsToNat (ds : List Char) : Nat :=
  ds.foldl (fun a c => a * 10 + charVal c) 0

/-- Parse a JSON number (optional minus sign, then digits). -/
def parseNumber (cs : List Char) : Option (Json × List Char) :=
  match cs with
  | [] => none
  | c :: cs' =>
    if c = '-' then
      let p := spanDigits cs'
      if p.1 = [] then none else some (.num (-(charsToNat p.1 : Int)), p.2)
    else
      let p := spanDigits (c :: cs')
      if p.1 = [] then none else some (.num (charsToNat p.1 : Int), p.2)

/-- Parse the body of a JSON string, after the opening quote: ends at the
closing quote, a backslash escapes the following character. -/
def parseStringBody : List Char → Option (List Char × List Char)
  | [] => none
  | c :: cs =>
    if c = '"' then some ([], cs)
    else if c = '\\' then
      match cs with
      | [] => none
      | d :: cs' => (parseStringBody cs').map fun p => (d :: p.1, p.2)
    else (parseStringBody cs).map fun p => (c :: p.1, p.2)

mutual

/-- Fuel-indexed recursive-descent JSON parser: returns the parsed value
and the unconsumed input.  The fuel argument only ensures termination;
any sufficiently large value yields the parse. -/
def parseJson : Nat → List Char → Option (Json × List Char)
  | 0, _ => none
  | _ + 1, [] => none
  | fuel + 1, c :: cs' =>
    if c = 'n' then
      match cs' with
      | 'u' :: 'l' :: 'l' :: rest => some (.null, rest)
      | _ => none
    else if c = 't' then
      match cs' with
      | 'r' :: 'u' :: 'e' :: rest => some (.bool true, rest)
      | _ => none
    else if c = 'f' then
      match cs' with
      | 'a' :: 'l' :: 's' :: 'e' :: rest => some (.bool false, rest)
      | _ => none
    else if c = '"' then
      (parseStringBody cs').map fun p => (.str p.1, p.2)
    else if c = '[' then
      (parseArrItems fuel cs').map fun p => (.arr p.1, p.2)
    else if c = '{' then
      (parseObjItems fuel cs').map fun p => (.obj p.1, p.2)
    else if c = '-' ∨ c.isDigit then parseNumber (c :: cs')
    else none

/-- Parse the contents of an array after the opening bracket. -/
def parseArrItems : Nat → List Char → Option (JsonList × List Char)
  | 0, _ => none
  | _ + 1, [] => none
  | fuel + 1, c :: cs' =>
    if c = ']' then some (.nil, cs')
    else
      (parseJson fuel (c :: cs')).bind fun p =>
        (parseArrTail fuel p.2).map fun q => (.cons p.1 q.1, q.2)

/-- Parse the remainder of an array after one element: either the closing
bracket or a comma followed by more elements. -/
def parseArrTail : Nat → List Char → Option (JsonList × List Char)
  | 0, _ => none
  | _ + 1, [] => none
  | fuel + 1, c :: cs' =>
    if c = ']' then some (.nil, cs')
    else if c = ',' then
      (parseJson fuel cs').bind fun p =>
        (parseArrTail fuel p.2).map fun q => (.cons p.1 q.1, q.2)
    else none

/-- Parse the contents of an object after the opening brace. -/
def parseObjItems : Nat → List Char → Option (JsonFields × List Char)
  | 0, _ => none
  | _ + 1, [] => none
  | fuel + 1, c :: cs' =>
    if c = '}' then some (.nil, cs')
    else if c = '"' then
      (parseStringBody cs').bind fun kp =>
        match kp.2 with
        | ':' :: rest =>
          (parseJson fuel rest).bind fun p =>
            (parseObjTail fuel p.2).map fun q => (.cons kp.1 p.1 q.1, q.2)
        | _ => none
    else none

/-- Parse the remainder of an object after one field: either the closing
brace or a comma followed by more fields. -/
def parseObjTail : Nat → List Char → Option (JsonFields × List Char)
  | 0, _ => none
  | _ + 1, [] => none
  | fuel + 1, c :: cs' =>
    if c = '}' then some (.nil, cs')
    else if c = ',' then
      match cs' with
      | '"' :: cs'' =>
        (parseStringBody cs'').bind fun kp =>
          match kp.2 with
          | ':' :: rest =>
            (parseJson fuel rest).bind fun p =>
              (parseObjTail fuel p.2).map fun q => (.cons kp.1 p.1 q.1, q.2)
          | _ => none
      | _ => none
    else none

end

mutual

/-- Structural size of a JSON value, used for the parser fuel bound. -/
def sizeJ : Json → Nat
  | .null => 1
  | .bool _ => 1
  | .num _ => 1
  | .str _ => 1
  | .arr xs => sizeL xs + 2
  | .obj fs => sizeF fs + 2

/-- Structural size of array elements. -/
def sizeL : JsonList → Nat
  | .nil => 0
  | .cons x tl => sizeJ x + sizeL tl + 1

/-- Structural size of object fields. -/
def sizeF : JsonFields → Nat
  | .nil => 0
  | .cons _ v tl => sizeJ v + sizeF tl + 1

end

/-! ## Parser correctness: numbers and strings -/

theorem digitChar_isDigit (d : Nat) : (digitChar d).isDigit = true := by
  have h : d % 10 < 10 := Nat.mod_lt _ (by omega)
  unfold digitChar
  generalize he : d % 10 = e
  rw [he] at h
  interval_cases e <;> decide

theorem charVal_digitChar (d : Nat) (h : d < 10) : charVal (digitChar d) = d := by
  unfold digitChar charVal
  interval_cases d <;> decide

theorem natToChars_ne_nil (n : Nat) : natToChars n ≠ [] := by
  unfold natToChars
  split <;> simp

theorem natToChars_digits (n : Nat) : ∀ c ∈ natToChars n, c.isDigit = true := by
  induction n using Nat.strong_induction_on with
  | _ n ih =>
    unfold natToChars
    split
    · intro c hc
      simp at hc
      subst hc
      exact digitChar_isDigit n
    · intro c hc
      rcases List.mem_append.mp hc with h | h
      · exact ih (n / 10) (Nat.div_lt_self (by omega) (by omega)) c h
      · simp at h
        subst h
        exact digitChar_isDigit (n % 10)

theorem charsToNat_append_one (xs : List Char) (c : Char) :
    charsToNat (xs ++ [c]) = charsToNat xs * 10 + charVal c := by
  unfold charsToNat
  rw [List.foldl_append]
  rfl

theorem charsToNat_natToChars (n : Nat) : charsToNat (natToChars n) = n := by
  induction n using Nat.strong_induction_on with
  | _ n ih =>
    unfold natToChars
    split
    · rename_i h
      show charsToNat [digitChar n] = n
      unfold charsToNat
      simp [charVal_digitChar n h]
    · rename_i h
      rw [charsToNat_append_one, ih (n / 10) (Nat.div_lt_self (by omega) (by omega)),
        charVal_digitChar (n % 10) (Nat.mod_lt _ (by omega))]
      omega

/-- The input that follows a serialized value never begins with a digit:
it is empty or begins with a separator or closing bracket. -/
def DelimOk : List Char → Prop
  | [] => True
  | c :: _ => c = ',' ∨ c = ']' ∨ c = '}'

theorem DelimOk.noDigit {rest : List Char} (h : DelimOk rest) :
    ∀ c cs, rest = c :: cs → c.isDigit = false := by
  intro c cs hr
  subst hr
  have h' : c = ',' ∨ c = ']' ∨ c = '}' := h
  rcases h' with h' | h' | h' <;> subst h' <;> decide

theorem spanDigits_append (xs rest : List Char) (hx : ∀ c ∈ xs, c.isDigit = true)
    (hr : ∀ c cs, rest = c :: cs → c.isDigit = false) :
    spanDigits (xs ++ rest) = (xs, rest) := by
  induction xs with
  | nil =>
    cases rest with
    | nil => rfl
    | cons c cs => simp [spanDigits, hr c cs rfl]
  | cons c cs ih =>
    simp [spanDigits, hx c (by simp), ih (fun d hd => hx d (by simp [hd]))]

theorem digit_ne (c : Char) (h : c.isDigit = true) :
    c ≠ 'n' ∧ c ≠ 't' ∧ c ≠ 'f' ∧ c ≠ '"' ∧ c ≠ '[' ∧ c ≠ '{' ∧
      c ≠ ']' ∧ c ≠ '}' ∧ c ≠ ',' ∧ c ≠ '-' ∧ c ≠ ':' := by
  refine ⟨?_, ?_, ?_, ?_, ?_, ?_, ?_, ?_, ?_, ?_, ?_⟩ <;>
    (rintro rfl; exact absurd h (by decide))

theorem parseNumber_neg_eq (cs' : List Char) :
    parseNumber ('-' :: cs') =
      (if (spanDigits cs').1 = [] then none
       else some (.num (-(charsToNat (spanDigits cs').1 : Int)), (spanDigits cs').2)) := by
  simp [parseNumber]

theorem parseNumber_nonneg_eq (c : Char) (cs' : List Char) (h : ¬c = '-') :
    parseNumber (c :: cs') =
      (if (spanDigits (c :: cs')).1 = [] then none
       else some (.num (charsToNat (spanDigits (c :: cs')).1 : Int), (spanDigits (c :: cs')).2)) := by
  simp [parseNumber, h]

theorem parseNumber_int (n : Int) (rest : List Char) (hr : DelimOk rest) :
    parseNumber (intToChars n ++ rest) = some (.num n, rest) := by
  unfold intToChars
  split
  · rename_i hneg
    show parseNumber ('-' :: (natToChars n.natAbs ++ rest)) = _
    rw [parseNumber_neg_eq, spanDigits_append _ _ (natToChars_digits _) hr.noDigit]
    rw [if_neg (natToChars_ne_nil _)]
    rw [charsToNat_natToChars]
    have he : -(n.natAbs : Int) = n := by omega
    rw [he]
  · rename_i hpos
    obtain ⟨c, cs, hc⟩ : ∃ c cs, natToChars n.natAbs = c :: cs := by
      cases h : natToChars n.natAbs with
      | nil => exact absurd h (natToChars_ne_nil _)
      | cons c cs => exact ⟨c, cs, rfl⟩
    have hdig : c.isDigit = true :=
      natToChars_digits n.natAbs c (by rw [hc]; exact List.mem_cons_self _ _)
    rw [hc]
    show parseNumber (c :: (cs ++ rest)) = _
    rw [parseNumber_nonneg_eq c (cs ++ rest) (digit_ne c hdig).2.2.2.2.2.2.2.2.2.1]
    have hx : c :: (cs ++ rest) = (natToChars n.natAbs) ++ rest := by rw [hc]; rfl
    rw [hx, spanDigits_append _ _ (natToChars_digits _) hr.noDigit]
    rw [if_neg (natToChars_ne_nil _)]
    rw [charsToNat_natToChars]
    have he : ((n.natAbs : Int)) = n := by omega
    rw [he]

theorem parseStringBody_escape (s : List Char) (rest : List Char) :
    parseStringBody (escapeChars s ++ '"' :: rest) = some (s, rest) := by
  induction s with
  | nil =>
    show parseStringBody ('"' :: rest) = _
    unfold parseStringBody
    simp
  | cons c cs ih =>
    show parseStringBody ((escapeChar c ++ escapeChars cs) ++ '"' :: rest) = _
    unfold escapeChar
    split
    · rename_i hc
      show parseStringBody ('\\' :: c :: (escapeChars cs ++ '"' :: rest)) = _
      unfold parseStringBody
      rw [if_neg (by decide), if_pos rfl]
      simp [ih]
    · rename_i hc
      push_neg at hc
      show parseStringBody (c :: (escapeChars cs ++ '"' :: rest)) = _
      unfold parseStringBody
      rw [if_neg hc.1, if_neg hc.2]
      simp [ih]

theorem sizeJ_pos (j : Json) : 1 ≤ sizeJ j := by
  cases j <;> simp [sizeJ]

theorem intToChars_head (n : Int) :
    ∃ c cs, intToChars n = c :: cs ∧ (c = '-' ∨ c.isDigit = true) := by
  unfold intToChars
  split
  · exact ⟨'-', _, rfl, Or.inl rfl⟩
  · cases h : natToChars n.natAbs with
    | nil => exact absurd h (natToChars_ne_nil _)
    | cons c cs =>
      refine ⟨c, cs, rfl, Or.inr (natToChars_digits n.natAbs c ?_)⟩
      rw [h]
      exact List.mem_cons_self _ _

theorem dumpJson_head (j : Json) :
    ∃ c cs, dumpJson j = c :: cs ∧ c ≠ ']' ∧ c ≠ '}' ∧ c ≠ ',' := by
  cases j with
  | null => exact ⟨'n', _, rfl, by decide, by decide, by decide⟩
  | bool b => cases b
              · exact ⟨'f', _, rfl, by decide, by decide, by decide⟩
              · exact ⟨'t', _, rfl, by decide, by decide, by decide⟩
  | num n =>
    obtain ⟨c, cs, hc, hcase⟩ := intToChars_head n
    refine ⟨c, cs, hc, ?_, ?_, ?_⟩ <;>
      (rcases hcase with h | h
       · subst h; decide
       · have hd := digit_ne c h; tauto)
  | str s => exact ⟨'"', _, rfl, by decide, by decide, by decide⟩
  | arr xs => exact ⟨'[', _, rfl, by decide, by decide, by decide⟩
  | obj fs => exact ⟨'{', _, rfl, by decide, by decide, by decide⟩

theorem delimOk_sepList (tl : JsonList) (rest : List Char) :
    DelimOk (dumpSepList tl ++ ']' :: rest) := by
  cases tl with
  | nil => exact (Or.inr (Or.inl rfl) : ']' = ',' ∨ ']' = ']' ∨ ']' = '}')
  | cons x tl => exact (Or.inl rfl : ',' = ',' ∨ ',' = ']' ∨ ',' = '}')

theorem delimOk_sepFields (tl : JsonFields) (rest : List Char) :
    DelimOk (dumpSepFields tl ++ '}' :: rest) := by
  cases tl with
  | nil => exact (Or.inr (Or.inr rfl) : '}' = ',' ∨ '}' = ']' ∨ '}' = '}')
  | cons k v tl => exact (Or.inl rfl : ',' = ',' ∨ ',' = ']' ∨ ',' = '}')

mutual

theorem parseJson_dump (j : Json) : ∀ fuel rest, sizeJ j ≤ fuel → DelimOk rest →
    parseJson fuel (dumpJson j ++ rest) = some (j, rest) := by
  cases j with
  | null =>
    intro fuel rest hf _
    cases fuel with
    | zero => simp [sizeJ] at hf
    | succ f =>
      show parseJson (f+1) ('n':: 'u':: 'l':: 'l'::rest) = _
      simp [parseJson]
  | bool b =>
    intro fuel rest hf _
    cases fuel with
    | zero => simp [sizeJ] at hf
    | succ f =>
      cases b
      · show parseJson (f+1) ('f':: 'a':: 'l':: 's':: 'e'::rest) = _
        simp [parseJson]
      · show parseJson (f+1) ('t':: 'r':: 'u':: 'e'::rest) = _
        simp [parseJson]
  | num n =>
    intro fuel rest hf hr
    cases fuel with
    | zero => simp [sizeJ] at hf
    | succ f =>
      show parseJson (f+1) (intToChars n ++ rest) = some (.num n, rest)
      obtain ⟨c, cs, hc, hcase⟩ := intToChars_head n
      rw [hc, List.cons_append]
      have hb : parseJson (f+1) (c :: (cs ++ rest)) = parseNumber (c :: (cs ++ rest)) := by
        rcases hcase with h | h
        · subst h
          simp [parseJson]
        · have hd := digit_ne c h
          simp [parseJson, hd.1, hd.2.1, hd.2.2.1, hd.2.2.2.1, hd.2.2.2.2.1, hd.2.2.2.2.2.1, h]
      rw [hb, ← List.cons_append, ← hc]
      exact parseNumber_int n rest hr
  | str s =>
    intro fuel rest hf _
    cases fuel with
    | zero => simp [sizeJ] at hf
    | succ f =>
      show parseJson (f+1) (('"' :: (escapeChars s ++ ['"'])) ++ rest) = _
      rw [List.cons_append, List.append_assoc]
      show parseJson (f+1) ('"' :: (escapeChars s ++ '"' :: rest)) = _
      simp [parseJson, parseStringBody_escape]
  | arr xs =>
    intro fuel rest hf hr
    cases fuel with
    | zero => simp [sizeJ] at hf
    | succ f =>
      have hx : sizeL xs + 1 ≤ f := by
        simp [sizeJ] at hf
        omega
      show parseJson (f+1) (('[' :: (dumpList xs ++ [']'])) ++ rest) = _
      rw [List.cons_append, List.append_assoc]
      show parseJson (f+1) ('[' :: (dumpList xs ++ ']' :: rest)) = _
      simp [parseJson, parseArrItems_dump xs f rest hx hr]
  | obj fs =>
    intro fuel rest hf hr
    cases fuel with
    | zero => simp [sizeJ] at hf
    | succ f =>
      have hx : sizeF fs + 1 ≤ f := by
        simp [sizeJ] at hf
        omega
      show parseJson (f+1) (('{' :: (dumpFields fs ++ ['}'])) ++ rest) = _
      rw [List.cons_append, List.append_assoc]
      show parseJson (f+1) ('{' :: (dumpFields fs ++ '}' :: rest)) = _
      simp [parseJson, parseObjItems_dump fs f rest hx hr]

theorem parseArrItems_dump (xs : JsonList) : ∀ fuel rest, sizeL xs + 1 ≤ fuel → DelimOk rest →
    parseArrItems fuel (dumpList xs ++ ']' :: rest) = some (xs, rest) := by
  cases xs with
  | nil =>
    intro fuel rest hf _
    cases fuel with
    | zero => omega
    | succ f =>
      show parseArrItems (f+1) (']' :: rest) = _
      simp [parseArrItems]
  | cons x tl =>
    intro fuel rest hf hr
    cases fuel with
    | zero => omega
    | succ f =>
      have hsz : sizeJ x + sizeL tl + 1 + 1 ≤ f + 1 := by
        simp [sizeL] at hf
        omega
      obtain ⟨c, cs, hc, hne1, hne2, hne3⟩ := dumpJson_head x
      show parseArrItems (f+1) ((dumpJson x ++ dumpSepList tl) ++ ']' :: rest) = _
      rw [List.append_assoc, hc, List.cons_append]
      have hj : parseJson f (c :: (cs ++ (dumpSepList tl ++ ']' :: rest))) =
          some (x, dumpSepList tl ++ ']' :: rest) := by
        rw [← List.cons_append, ← hc]
        exact parseJson_dump x f _ (by omega) (delimOk_sepList tl rest)
      simp [parseArrItems, hne1, hj, parseArrTail_dump tl f rest (by omega) hr]

theorem parseArrTail_dump (xs : JsonList) : ∀ fuel rest, sizeL xs + 1 ≤ fuel → DelimOk rest →
    parseArrTail fuel (dumpSepList xs ++ ']' :: rest) = some (xs, rest) := by
  cases xs with
  | nil =>
    intro fuel rest hf _
    cases fuel with
    | zero => omega
    | succ f =>
      show parseArrTail (f+1) (']' :: rest) = _
      simp [parseArrTail]
  | cons x tl =>
    intro fuel rest hf hr
    cases fuel with
    | zero => omega
    | succ f =>
      have hsz : sizeJ x + sizeL tl + 1 + 1 ≤ f + 1 := by
        simp [sizeL] at hf
        omega
      show parseArrTail (f+1) ((',' :: (dumpJson x ++ dumpSepList tl)) ++ ']' :: rest) = _
      rw [List.cons_append, List.append_assoc]
      have hj : parseJson f (dumpJson x ++ (dumpSepList tl ++ ']' :: rest)) =
          some (x, dumpSepList tl ++ ']' :: rest) :=
        parseJson_dump x f _ (by omega) (delimOk_sepList tl rest)
      simp [parseArrTail, hj, parseArrTail_dump tl f rest (by omega) hr]

theorem parseObjItems_dump (fs : JsonFields) : ∀ fuel rest, sizeF fs + 1 ≤ fuel → DelimOk rest →
    parseObjItems fuel (dumpFields fs ++ '}' :: rest) = some (fs, rest) := by
  cases fs with
  | nil =>
    intro fuel rest hf _
    cases fuel with
    | zero => omega
    | succ f =>
      show parseObjItems (f+1) ('}' :: rest) = _
      simp [parseObjItems]
  | cons k v tl =>
    intro fuel rest hf hr
    cases fuel with
    | zero => omega
    | succ f =>
      have hsz : sizeJ v + sizeF tl + 1 + 1 ≤ f + 1 := by
        simp [sizeF] at hf
        omega
      show parseObjItems (f+1)
        (('"' :: ((escapeChars k ++ '"' :: ':' :: dumpJson v) ++ dumpSepFields tl)) ++ '}' :: rest) = _
      rw [List.cons_append, List.append_assoc, List.append_assoc]
      have hj : parseJson f (dumpJson v ++ (dumpSepFields tl ++ '}' :: rest)) =
          some (v, dumpSepFields tl ++ '}' :: rest) :=
        parseJson_dump v f _ (by omega) (delimOk_sepFields tl rest)
      simp [parseObjItems, parseStringBody_escape, hj,
        parseObjTail_dump tl f rest (by omega) hr]

theorem parseObjTail_dump (fs : JsonFields) : ∀ fuel rest, sizeF fs + 1 ≤ fuel → DelimOk rest →
    parseObjTail fuel (dumpSepFields fs ++ '}' :: rest) = some (fs, rest) := by
  cases fs with
  | nil =>
    intro fuel rest hf _
    cases fuel with
    | zero => omega
    | succ f =>
      show parseObjTail (f+1) ('}' :: rest) = _
      simp [parseObjTail]
  | cons k v tl =>
    intro fuel rest hf hr
    cases fuel with
    | zero => omega
    | succ f =>
      have hsz : sizeJ v + sizeF tl + 1 + 1 ≤ f + 1 := by
        simp [sizeF] at hf
        omega
      show parseObjTail (f+1)
        ((',' :: ('"' :: ((escapeChars k ++ '"' :: ':' :: dumpJson v) ++ dumpSepFields tl))) ++ '}' :: rest) = _
      rw [List.cons_append, List.cons_append, List.append_assoc, List.append_assoc]
      have hj : parseJson f (dumpJson v ++ (dumpSepFields tl ++ '}' :: rest)) =
          some (v, dumpSepFields tl ++ '}' :: rest) :=
        parseJson_dump v f _ (by omega) (delimOk_sepFields tl rest)
      simp [parseObjTail, parseStringBody_escape, hj,
        parseObjTail_dump tl f rest (by omega) hr]

end

/-! ## Round trip through text -/

mutual

theorem sizeJ_le (j : Json) : sizeJ j ≤ 2 * (dumpJson j).length := by
  cases j with
  | null => simp [sizeJ, dumpJson]
  | bool b => cases b <;> simp [sizeJ, dumpJson]
  | num n =>
    have h1 : dumpJson (.num n) = intToChars n := rfl
    have h2 : intToChars n ≠ [] := by
      unfold intToChars
      split
      · simp
      · exact natToChars_ne_nil _
    have h3 : 1 ≤ (intToChars n).length := by
      cases h : intToChars n with
      | nil => exact absurd h h2
      | cons c cs => simp
    simp [sizeJ, h1]
    omega
  | str s =>
    have h1 : (dumpJson (.str s)).length = 1 + ((escapeChars s).length + 1) := by
      simp [dumpJson]
      omega
    simp [sizeJ, h1]
    omega
  | arr xs =>
    have h1 : (dumpJson (.arr xs)).length = 1 + ((dumpList xs).length + 1) := by
      simp [dumpJson]
      omega
    cases xs with
    | nil => simp [sizeJ, sizeL, h1, dumpList]
    | cons x tl =>
      have h2 : (dumpList (.cons x tl)).length =
          (dumpJson x).length + (dumpSepList tl).length := by
        simp [dumpList]
      have ha := sizeJ_le x
      have hb := sizeL_le tl
      simp [sizeJ, sizeL, h1, h2]
      omega
  | obj fs =>
    have h1 : (dumpJson (.obj fs)).length = 1 + ((dumpFields fs).length + 1) := by
      simp [dumpJson]
      omega
    cases fs with
    | nil => simp [sizeJ, sizeF, h1, dumpFields]
    | cons k v tl =>
      have h2 : (dumpFields (.cons k v tl)).length =
          1 + ((escapeChars k).length + (2 + (dumpJson v).length)) +
            (dumpSepFields tl).length := by
        simp [dumpFields]
        omega
      have ha := sizeJ_le v
      have hb := sizeF_le tl
      simp [sizeJ, sizeF, h1, h2]
      omega

theorem sizeL_le (xs : JsonList) : sizeL xs ≤ 2 * (dumpSepList xs).length + 1 := by
  cases xs with
  | nil => simp [sizeL]
  | cons x tl =>
    have h1 : (dumpSepList (.cons x tl)).length =
        1 + ((dumpJson x).length + (dumpSepList tl).length) := by
      simp [dumpSepList]
      omega
    have ha := sizeJ_le x
    have hb := sizeL_le tl
    simp [sizeL, h1]
    omega

theorem sizeF_le (fs : JsonFields) : sizeF fs ≤ 2 * (dumpSepFields fs).length + 1 := by
  cases fs with
  | nil => simp [sizeF]
  | cons k v tl =>
    have h1 : (dumpSepFields (.cons k v tl)).length =
        1 + (1 + ((escapeChars k).length + (2 + (dumpJson v).length)) +
          (dumpSepFields tl).length) := by
      simp [dumpSepFields]
      omega
    have ha := sizeJ_le v
    have hb := sizeF_le tl
    simp [sizeF, h1]
    omega

end

/-- Serialize a JSON value to a string: the model of `json.dumps` and of a
pydantic event model's `.json()` output. -/
def dumps (j : Json) : String := ⟨dumpJson j⟩

/-- Parse a string as JSON: the model of `json.loads`.  Returns `none`
where the Python function raises `JSONDecodeError`. -/
def loads (s : String) : Option Json :=
  match parseJson (2 * s.length + 1) s.data with
  | some (j, []) => some j
  | _ => none

/-- The serializer and parser are mutually inverse: `json.loads` recovers
exactly the value that `json.dumps` rendered. -/
theorem loads_dumps (j : Json) : loads (dumps j) = some j := by
  unfold loads dumps
  have h := parseJson_dump j (2 * (dumpJson j).length + 1) []
    (le_trans (sizeJ_le j) (by omega)) trivial
  rw [List.append_nil] at h
  have hd : (String.mk (dumpJson j)).data = dumpJson j := rfl
  have hl : (String.mk (dumpJson j)).length = (dumpJson j).length := rfl
  rw [hd, hl, h]

/-! ## Events

The event classes (`Message`, `Task`, `TaskStatusUpdateEvent`,
`TaskArtifactUpdateEvent` from `a2a.types`) are pydantic models resolved
through `_TYPE_MAP` in `redis_event_queue.py`.
-/

/-- The closed set of known event kinds (the keys of `_TYPE_MAP`). -/
inductive EventKind where
  | message
  | task
  | taskStatusUpdateEvent
  | taskArtifactUpdateEvent
deriving DecidableEq

/-- Value of `type(event).__name__`: the class-name tag stored in the entry's
`type` field by `enqueue_event`. -/
def EventKind.name : EventKind → String
  | .message => "Message"
  | .task => "Task"
  | .taskStatusUpdateEvent => "TaskStatusUpdateEvent"
  | .taskArtifactUpdateEvent => "TaskArtifactUpdateEvent"

/-- Lookup `_TYPE_MAP.get(tag)`: resolve a type tag to an event kind. -/
def typeMap (tag : String) : Option EventKind :=
  if tag = "Message" then some .message
  else if tag = "Task" then some .task
  else if tag = "TaskStatusUpdateEvent" then some .taskStatusUpdateEvent
  else if tag = "TaskArtifactUpdateEvent" then some .taskArtifactUpdateEvent
  else none

/-- Modelled from the spec: the pydantic event models of `a2a.types` are
not under `src/`; per the spec an event is "an opaque, typed payload (one
of a closed set of domain event kinds) plus its serialized form".  We
model an event as its kind together with the JSON object holding its
serialized fields. -/
structure Event where
  kind : EventKind
  payload : JsonFields
deriving DecidableEq

/-- Serialization `event.json()`: a pydantic model serializes to the JSON text of its
field object. -/
def Event.json (e : Event) : String := dumps (.obj e.payload)

/-- The value held in Python's `data` variable after the `json.loads`
step of `dequeue_event`: a parsed JSON value, or the raw string when the
payload is not valid JSON (`JSONDecodeError` branch). -/
inductive Data where
  | json (j : Json)
  | str (s : String)
deriving DecidableEq

/-- The `data` value computed from a raw payload string: parse it as
JSON, or keep the string as-is on `JSONDecodeError`. -/
def mkData (raw : String) : Data :=
  match loads raw with
  | some j => .json j
  | none => .str raw

/-- Modelled from the spec: `model.parse_obj(data)`.  A pydantic model
validates a mapping back into a model instance — any serialized event
object validates into the event of that kind, and any non-mapping fails
validation (`ValidationError`).  Field-level schemas of `a2a.types` are
outside the embedded sources. -/
def parse_obj (k : EventKind) (d : Data) : Option Event :=
  match d with
  | .json (.obj fs) => some ⟨k, fs⟩
  | _ => none

/-! ## Redis stream storage

Storage is modelled with the semantics of the repository's `FakeRedis`
test double (`tests/server/events/test_redis_event_queue.py`): a map from
stream key to an ordered entry list; `xadd` appends with entry id
`f"{len+1}-0"`, `xread` returns the entries whose numeric id exceeds the
supplied cursor, `set` is a no-op, and `maxlen` is accepted and ignored.
Entry ids `"n-0"` are represented by their numeric part `n`.
-/

/-- One stream entry: the numeric part of its id plus the field mapping
given to `xadd`. -/
structure Entry where
  id : Nat
  fields : List (String × String)
deriving DecidableEq

/-- Python `dict.get` on a string-keyed mapping held as an association
list in insertion order. -/
def pyGet {α : Type} : List (String × α) → String → Option α
  | [], _ => none
  | (k', v) :: tl, k => if k' = k then some v else pyGet tl k

/-- The storage state: stream key to ordered entry list. -/
def RedisState := String → List Entry

/-- A server with no streams. -/
def RedisState.empty : RedisState := fun _ => []

/-- Append `xadd(stream_key, fields, **kwargs)`: append one entry whose id is
`len + 1`; any `maxlen` keyword is ignored (as in the test double). -/
def xadd (s : RedisState) (key : String) (fields : List (String × String)) : RedisState :=
  fun k => if k = key then s key ++ [⟨(s key).length + 1, fields⟩] else s k

/-- A read cursor (`self._last_id`): an entry id (numeric part; `'0-0'`
is 0), or `'$'` meaning the stream tail. -/
inductive Cursor where
  | id (n : Nat)
  | tail
deriving DecidableEq

/-- Numeric interpretation of a cursor against a stream
(`int(str(last_id).split('-')[0])`; `'$'` reads as the current length,
so nothing currently stored qualifies). -/
def cursorNum (lst : List Entry) : Cursor → Nat
  | .id n => n
  | .tail => lst.length

/-- Read `xread({key: last_id}, block=…, count=1)` as used by `dequeue_event`:
the first entry whose id exceeds the cursor, if any. -/
def xreadOne (s : RedisState) (key : String) (cur : Cursor) : Option Entry :=
  ((s key).filter (fun en => cursorNum (s key) cur < en.id)).head?

/-! ## RedisEventQueue -/

/-- The attributes of a `RedisEventQueue` handle.  The redis client
(`self._redis`) is threaded separately as the `RedisState`;
`streamPre` stands for the constructor's `stream_prefix` argument. -/
structure RedisEventQueue where
  task_id : String
  stream_key : String
  maxlen : Option Nat
  read_block_ms : Nat
  last_id : Cursor
  is_closed : Bool
deriving DecidableEq

/-- Constructor `RedisEventQueue.__init__(task_id, redis_client, stream_prefix,
maxlen, read_block_ms)`: stream key `f'{stream_prefix}:{task_id}'`,
cursor at the beginning (`'0-0'`), open. -/
def RedisEventQueue.init (task_id streamPre : String) (maxlen : Option Nat)
    (read_block_ms : Nat) : RedisEventQueue :=
  { task_id := task_id
    stream_key := streamPre ++ ":" ++ task_id
    maxlen := maxlen
    read_block_ms := read_block_ms
    last_id := .id 0
    is_closed := false }

/-- Result of a Python call that may raise: a normal return or a raised
exception. -/
inductive PyResult (α : Type) where
  | ok (a : α)
  | raised
deriving DecidableEq

/-- The field mapping built by `enqueue_event`:
`{'type': type(event).__name__, 'payload': event.json()}`. -/
def eventFields (e : Event) : List (String × String) :=
  [("type", e.kind.name), ("payload", e.json)]

/-- The tombstone entry fields written by `close`: `{'type': 'CLOSE'}`. -/
def closeFields : List (String × String) := [("type", "CLOSE")]

/-- Method `enqueue_event(event)`.  `xaddFails` models the underlying `XADD`
raising `RedisError`: the source catches it with
`logger.exception(...)` and falls through, returning normally, so the
failure never propagates and the entry is lost. -/
def RedisEventQueue.enqueue_event (q : RedisEventQueue) (s : RedisState)
    (xaddFails : Bool) (e : Event) :
    RedisEventQueue × RedisState × PyResult Unit :=
  if q.is_closed then (q, s, .ok ())
  else if xaddFails then (q, s, .ok ())
  else (q, xadd s q.stream_key (eventFields e), .ok ())

/-- What `dequeue_event` does: raise `asyncio.QueueEmpty`, return a
parsed event model, or return raw data (unknown type tag, or payload
rejected by the model). -/
inductive DequeueResult where
  | queueEmpty
  | event (e : Event)
  | data (d : Data)
deriving DecidableEq

/-- One iteration of the `while True` loop of `dequeue_event`, iterated
on fuel (any fuel exceeding the number of entries past the cursor
behaves identically, since every iteration advances the cursor past at
least one stored entry). -/
def dequeueLoop (s : RedisState) : Nat → RedisEventQueue → DequeueResult × RedisEventQueue
  | 0, q => (.queueEmpty, q)
  | fuel + 1, q =>
    match xreadOne s q.stream_key q.last_id with
    | none => (.queueEmpty, q)
    | some en =>
      let q1 := { q with last_id := .id en.id }
      if pyGet en.fields "type" = some "CLOSE" then
        (.queueEmpty, { q1 with is_closed := true })
      else
        match pyGet en.fields "payload" with
        | none => dequeueLoop s fuel q1
        | some raw =>
          let d : Data := mkData raw
          match pyGet en.fields "type" with
          | none => (.data d, q1)
          | some tag =>
            match typeMap tag with
            | none => (.data d, q1)
            | some k =>
              match parse_obj k d with
              | some e => (.event e, q1)
              | none => (.data d, q1)

/-- Method `dequeue_event(no_wait)`.  A closed handle raises immediately
without touching the storage.  Against the embedded storage semantics
(where `XREAD` returns whatever is present without waiting, like the
test double), the `no_wait` flag only changes the ignored blocking
timeout. -/
def RedisEventQueue.dequeue_event (q : RedisEventQueue) (s : RedisState)
    (no_wait : Bool) : DequeueResult × RedisEventQueue :=
  if q.is_closed then (.queueEmpty, q)
  else
    let _block := if no_wait then 0 else q.read_block_ms
    dequeueLoop s ((s q.stream_key).length + 1) q

/-- Method `close(immediate=False)`: set the `:closed` marker key (a storage
no-op in the model, as in the test double's `set`) and append the
`CLOSE` tombstone entry.  The handle itself is not modified. -/
def RedisEventQueue.close (q : RedisEventQueue) (s : RedisState) :
    RedisEventQueue × RedisState :=
  (q, xadd s q.stream_key closeFields)

/-- Computation `stream_key.rsplit(':', 1)[0]`: everything before the last colon, or
the whole string when it has no colon. -/
def rsplitColonHead (s : String) : String :=
  if ':' ∈ s.data then ⟨((s.data.reverse.dropWhile (fun c => ¬c = ':')).drop 1).reverse⟩
  else s

/-- Method `tap()`: construct a sibling handle with the stream prefix recomputed
by `rsplit`, then point its cursor at the id of the stream's current last
entry (`'0-0'` when the stream is empty, matching the source's fake-client
path; the `'$'` fallback is only reachable when the client raises).  The
return shape makes explicit that neither the source handle nor the storage
is modified. -/
def RedisEventQueue.tap (q : RedisEventQueue) (s : RedisState) :
    RedisEventQueue × RedisState × RedisEventQueue :=
  let q0 := RedisEventQueue.init q.task_id (rsplitColonHead q.stream_key)
    q.maxlen q.read_block_ms
  let lst := s q.stream_key
  let q' := { q0 with last_id := .id (match lst.getLast? with
    | some en => en.id
    | none => 0) }
  (q, s, q')

/-! ## RedisEventConsumer -/

/-- Method `consume_one()`: a single `dequeue_event(no_wait=True)` pull,
propagating `QueueEmpty`. -/
def consume_one (q : RedisEventQueue) (s : RedisState) :
    DequeueResult × RedisEventQueue :=
  q.dequeue_event s true

/-- The `consume_all` generator loop, one loop iteration per fuel step:
returns the values yielded so far in order, the final handle state, and
whether the loop has exited (the `break` taken after a yield when
`is_closed()` is true).  A `QueueEmpty` is caught and the loop
continues. -/
def consume_all_steps (s : RedisState) : Nat → RedisEventQueue →
    List DequeueResult × RedisEventQueue × Bool
  | 0, q => ([], q, false)
  | fuel + 1, q =>
    let r0 := q.dequeue_event s false
    match r0.1 with
    | .queueEmpty => consume_all_steps s fuel r0.2
    | v =>
      if r0.2.is_closed then ([v], r0.2, true)
      else
        let r := consume_all_steps s fuel r0.2
        (v :: r.1, r.2.1, r.2.2)

/-! ## RedisQueueManager -/

/-- The registry state of `RedisQueueManager`: the configured
`stream_prefix` (here `streamPre`) and the `_task_queue` dict held as an
insertion-ordered association list. -/
structure RedisQueueManager where
  streamPre : String
  task_queue : List (String × RedisEventQueue)
deriving DecidableEq

/-- Outcome of `add`: normal return or a raised `TaskQueueExists`. -/
inductive AddResult where
  | ok
  | taskQueueExists
deriving DecidableEq

/-- Method `add(task_id, queue)`: register a canonical queue, raising
`TaskQueueExists` when one is already registered. -/
def RedisQueueManager.add (m : RedisQueueManager) (tid : String)
    (q : RedisEventQueue) : RedisQueueManager × AddResult :=
  if (pyGet m.task_queue tid).isSome then (m, .taskQueueExists)
  else ({ m with task_queue := m.task_queue ++ [(tid, q)] }, .ok)

/-- Method `get(task_id)`: the registered canonical queue, if any. -/
def RedisQueueManager.get (m : RedisQueueManager) (tid : String) :
    Option RedisEventQueue :=
  pyGet m.task_queue tid

/-- Method `tap(task_id)`: a new tap of the canonical queue, or `None`. -/
def RedisQueueManager.tap (m : RedisQueueManager) (s : RedisState)
    (tid : String) : Option RedisEventQueue :=
  match pyGet m.task_queue tid with
  | none => none
  | some q => some (q.tap s).2.2

/-- Outcome of `close`: normal return or a raised `NoTaskQueue`. -/
inductive CloseResult where
  | ok
  | noTaskQueue
deriving DecidableEq

/-- Removal `dict.pop(key)` on the registry list. -/
def popTask : List (String × RedisEventQueue) → String →
    List (String × RedisEventQueue)
  | [], _ => []
  | (k', v) :: tl, k => if k' = k then tl else (k', v) :: popTask tl k

/-- Method `close(task_id)`: pop the canonical queue and close it, raising
`NoTaskQueue` for an unregistered task id. -/
def RedisQueueManager.close (m : RedisQueueManager) (s : RedisState)
    (tid : String) : RedisQueueManager × RedisState × CloseResult :=
  match pyGet m.task_queue tid with
  | none => (m, s, .noTaskQueue)
  | some q =>
    let m' := { m with task_queue := popTask m.task_queue tid }
    (m', (q.close s).2, .ok)

/-- Method `create_or_tap(task_id)`: register a fresh canonical
`RedisEventQueue` (constructor defaults: no `maxlen`, 500 ms poll) when
the task id is absent, else return a tap of the registered queue. -/
def RedisQueueManager.create_or_tap (m : RedisQueueManager) (s : RedisState)
    (tid : String) : RedisQueueManager × RedisEventQueue :=
  match pyGet m.task_queue tid with
  | none =>
    let q := RedisEventQueue.init tid m.streamPre none 500
    ({ m with task_queue := m.task_queue ++ [(tid, q)] }, q)
  | some q => (m, (q.tap s).2.2)

/-! ## Queue behaviour: supporting lemmas -/

theorem EventKind.name_ne_close (k : EventKind) : k.name ≠ "CLOSE" := by
  cases k <;> decide

theorem typeMap_name (k : EventKind) : typeMap k.name = some k := by
  cases k <;> rfl

theorem loads_event_json (e : Event) : loads e.json = some (.obj e.payload) :=
  loads_dumps (.obj e.payload)

theorem dequeueLoop_event (s : RedisState) (fuel : Nat) (q : RedisEventQueue)
    (e : Event) (m : Nat)
    (hread : xreadOne s q.stream_key q.last_id = some ⟨m, eventFields e⟩) :
    dequeueLoop s (fuel + 1) q = (.event e, { q with last_id := .id m }) := by
  simp only [dequeueLoop, hread]
  have h1 : pyGet (eventFields e) "type" = some e.kind.name := rfl
  have h2 : pyGet (eventFields e) "payload" = some e.json := rfl
  rw [h1, h2]
  rw [if_neg (by simp [EventKind.name_ne_close e.kind])]
  simp only [mkData, loads_event_json, typeMap_name, parse_obj]

theorem dequeueLoop_tombstone (s : RedisState) (fuel : Nat) (q : RedisEventQueue) (m : Nat)
    (hread : xreadOne s q.stream_key q.last_id = some ⟨m, closeFields⟩) :
    dequeueLoop s (fuel + 1) q =
      (.queueEmpty, { q with last_id := .id m, is_closed := true }) := by
  simp only [dequeueLoop, hread]
  have h1 : pyGet closeFields "type" = some "CLOSE" := rfl
  rw [h1]
  simp

theorem dequeueLoop_empty (s : RedisState) (fuel : Nat) (q : RedisEventQueue)
    (hread : xreadOne s q.stream_key q.last_id = none) :
    dequeueLoop s (fuel + 1) q = (.queueEmpty, q) := by
  simp only [dequeueLoop, hread]

theorem dequeueLoop_skip (s : RedisState) (fuel : Nat) (q : RedisEventQueue)
    (m : Nat) (flds : List (String × String))
    (hread : xreadOne s q.stream_key q.last_id = some ⟨m, flds⟩)
    (htype : ¬pyGet flds "type" = some "CLOSE")
    (hpay : pyGet flds "payload" = none) :
    dequeueLoop s (fuel + 1) q = dequeueLoop s fuel { q with last_id := .id m } := by
  simp only [dequeueLoop, hread]
  rw [if_neg htype, hpay]

theorem dequeueLoop_unknown (s : RedisState) (fuel : Nat) (q : RedisEventQueue)
    (m : Nat) (flds : List (String × String)) (tag raw : String)
    (hread : xreadOne s q.stream_key q.last_id = some ⟨m, flds⟩)
    (htype : pyGet flds "type" = some tag) (hne : tag ≠ "CLOSE")
    (hmap : typeMap tag = none)
    (hpay : pyGet flds "payload" = some raw) :
    dequeueLoop s (fuel + 1) q = (.data (mkData raw), { q with last_id := .id m }) := by
  simp only [dequeueLoop, hread]
  rw [if_neg (by simp [htype, hne]), hpay, htype]
  simp only [hmap]

theorem dequeueLoop_invalid (s : RedisState) (fuel : Nat) (q : RedisEventQueue)
    (m : Nat) (flds : List (String × String)) (k : EventKind) (raw : String)
    (hread : xreadOne s q.stream_key q.last_id = some ⟨m, flds⟩)
    (htype : pyGet flds "type" = some k.name)
    (hpay : pyGet flds "payload" = some raw)
    (hpo : parse_obj k (mkData raw) = none) :
    dequeueLoop s (fuel + 1) q = (.data (mkData raw), { q with last_id := .id m }) := by
  simp only [dequeueLoop, hread]
  rw [if_neg (by simp [htype, EventKind.name_ne_close k]), hpay, htype]
  simp only [typeMap_name, hpo]

theorem dequeue_event_open (q : RedisEventQueue) (s : RedisState) (w : Bool)
    (h : q.is_closed = false) :
    q.dequeue_event s w = dequeueLoop s ((s q.stream_key).length + 1) q := by
  simp [RedisEventQueue.dequeue_event, h]

theorem dequeue_event_closed (q : RedisEventQueue) (s : RedisState) (w : Bool)
    (h : q.is_closed = true) :
    q.dequeue_event s w = (.queueEmpty, q) := by
  simp [RedisEventQueue.dequeue_event, h]

/-- The entries a fresh stream holds after the given events were appended
in order, starting from `base` existing entries. -/
def mkEntries (base : Nat) : List Event → List Entry
  | [] => []
  | e :: es => ⟨base + 1, eventFields e⟩ :: mkEntries (base + 1) es

/-- A sequence of `enqueue_event` calls on one handle (healthy storage). -/
def enqueueAll (q : RedisEventQueue) : RedisState → List Event → RedisState
  | s, [] => s
  | s, e :: es => enqueueAll q (q.enqueue_event s false e).2.1 es

theorem xadd_self (s : RedisState) (key : String) (flds : List (String × String)) :
    xadd s key flds key = s key ++ [⟨(s key).length + 1, flds⟩] := by
  simp [xadd]

theorem xadd_other (s : RedisState) (key k : String) (flds : List (String × String))
    (h : ¬k = key) : xadd s key flds k = s k := by
  simp [xadd, h]

theorem enqueue_open_state (q : RedisEventQueue) (s : RedisState) (e : Event)
    (h : q.is_closed = false) :
    (q.enqueue_event s false e).2.1 = xadd s q.stream_key (eventFields e) := by
  simp [RedisEventQueue.enqueue_event, h]

theorem enqueueAll_stream (q : RedisEventQueue) (h : q.is_closed = false)
    (es : List Event) : ∀ s : RedisState,
    enqueueAll q s es q.stream_key =
      s q.stream_key ++ mkEntries (s q.stream_key).length es := by
  induction es with
  | nil => intro s; simp [enqueueAll, mkEntries]
  | cons e es ih =>
    intro s
    show enqueueAll q (q.enqueue_event s false e).2.1 es q.stream_key = _
    rw [enqueue_open_state q s e h, ih]
    rw [xadd_self]
    simp [mkEntries, List.length_append]

theorem enqueueAll_other (q : RedisEventQueue) (es : List Event) (k : String)
    (hk : ¬k = q.stream_key) : ∀ s : RedisState,
    enqueueAll q s es k = s k := by
  induction es with
  | nil => intro s; simp [enqueueAll]
  | cons e es ih =>
    intro s
    show enqueueAll q (q.enqueue_event s false e).2.1 es k = _
    rw [ih]
    by_cases hc : q.is_closed = true
    · simp [RedisEventQueue.enqueue_event, hc]
    · rw [enqueue_open_state q s e (by simpa using hc), xadd_other _ _ _ _ hk]

theorem mkEntries_filter_head (es : List Event) : ∀ base k, base ≤ k →
    ((mkEntries base es).filter (fun en => decide (k < en.id))).head? =
      (es.get? (k - base)).map (fun e => ⟨k + 1, eventFields e⟩) := by
  induction es with
  | nil => intro base k _; simp [mkEntries]
  | cons e es ih =>
    intro base k hbk
    by_cases hk : k = base
    · subst hk
      simp [mkEntries, List.filter]
    · have hlt : ¬(k < base + 1) := by omega
      have h2 : base + 1 ≤ k := by omega
      simp only [mkEntries, List.filter]
      rw [decide_eq_false hlt]
      rw [ih (base + 1) k h2]
      have : k - base = (k - (base + 1)) + 1 := by omega
      rw [this]
      rfl

theorem mkEntries_length (es : List Event) : ∀ base, (mkEntries base es).length = es.length := by
  induction es with
  | nil => intro base; rfl
  | cons e es ih => intro base; simp [mkEntries, ih]

theorem xreadOne_mkEntries (s : RedisState) (key : String) (es : List Event) (k : Nat)
    (hs : s key = mkEntries 0 es) :
    xreadOne s key (.id k) = (es.get? k).map (fun e => ⟨k + 1, eventFields e⟩) := by
  unfold xreadOne
  rw [hs]
  have h := mkEntries_filter_head es 0 k (by omega)
  simpa [cursorNum] using h

theorem dequeue_at (es : List Event) (q : RedisEventQueue) (s : RedisState) (w : Bool) (k : Nat)
    (hq : q.is_closed = false) (hcur : q.last_id = .id k)
    (hs : s q.stream_key = mkEntries 0 es) :
    q.dequeue_event s w =
      (match es.get? k with
       | some e => (.event e, { q with last_id := .id (k + 1) })
       | none => (.queueEmpty, q)) := by
  rw [dequeue_event_open q s w hq]
  have hf : (s q.stream_key).length = es.length := by rw [hs, mkEntries_length]
  rw [hf]
  have hread := xreadOne_mkEntries s q.stream_key es k hs
  cases hg : es.get? k with
  | none =>
    rw [hg] at hread
    exact dequeueLoop_empty s es.length q (by rw [hcur]; simpa using hread)
  | some e =>
    rw [hg] at hread
    exact dequeueLoop_event s es.length q e (k + 1) (by rw [hcur]; simpa using hread)

/-- Iterated `dequeue_event(no_wait=True)` against a fixed storage state:
the results in call order, plus the final handle. -/
def dequeueN : Nat → RedisEventQueue → RedisState → List DequeueResult × RedisEventQueue
  | 0, q, _ => ([], q)
  | n + 1, q, s =>
    let r := q.dequeue_event s true
    let rest := dequeueN n r.2 s
    (r.1 :: rest.1, rest.2)

theorem dequeueN_drop (es : List Event) (s : RedisState) :
    ∀ (n k : Nat) (q : RedisEventQueue), q.is_closed = false → q.last_id = .id k →
      s q.stream_key = mkEntries 0 es → k + n = es.length →
      dequeueN n q s = ((es.drop k).map DequeueResult.event,
        { q with last_id := .id es.length }) := by
  intro n
  induction n with
  | zero =>
    intro k q hq hcur hs hk
    have hk' : k = es.length := by omega
    subst hk'
    rw [List.drop_eq_nil_of_le (by omega)]
    cases q
    simp at hcur
    simp [dequeueN, hcur]
  | succ n ih =>
    intro k q hq hcur hs hk
    have hklt : k < es.length := by omega
    obtain ⟨e, hg⟩ : ∃ e, es.get? k = some e := by
      cases hg : es.get? k with
      | none =>
        rw [List.get?_eq_none] at hg
        omega
      | some e => exact ⟨e, rfl⟩
    have hstep := dequeue_at es q s true k hq hcur hs
    rw [hg] at hstep
    show (let r := q.dequeue_event s true
          let rest := dequeueN n r.2 s
          (r.1 :: rest.1, rest.2)) = _
    rw [hstep]
    have ih' := ih (k + 1) { q with last_id := .id (k + 1) } hq rfl hs (by omega)
    simp only [ih']
    have hdrop : es.drop k = e :: es.drop (k + 1) := by
      have := List.drop_eq_getElem_cons hklt
      rw [this]
      congr 1
      have := List.get?_eq_getElem? es k
      rw [hg] at this
      have h2 := (List.getElem?_eq_some_iff.mp this.symm)
      obtain ⟨hh, hv⟩ := h2
      exact hv
    rw [hdrop]
    rfl

theorem mkEntries_append (es es' : List Event) : ∀ base,
    mkEntries base (es ++ es') =
      mkEntries base es ++ mkEntries (base + es.length) es' := by
  induction es with
  | nil => intro base; simp [mkEntries]
  | cons e es ih =>
    intro base
    simp only [List.cons_append, List.length_cons]
    show Entry.mk (base + 1) (eventFields e) :: mkEntries (base + 1) (es ++ es') = _
    rw [ih (base + 1), show base + 1 + es.length = base + (es.length + 1) from by omega]
    rfl

theorem mkEntries_filter_none (es : List Event) : ∀ base k, base + es.length ≤ k →
    (mkEntries base es).filter (fun en => decide (k < en.id)) = [] := by
  induction es with
  | nil => intro base k _; rfl
  | cons e es ih =>
    intro base k hk
    have hk' : base + (es.length + 1) ≤ k := by simpa using hk
    simp only [mkEntries, List.filter]
    rw [decide_eq_false (by omega)]
    exact ih (base + 1) k (by omega)

theorem xreadOne_after_tombstone (s : RedisState) (key : String) (es : List Event)
    (hs : s key = mkEntries 0 es ++ [⟨es.length + 1, closeFields⟩]) :
    xreadOne s key (.id es.length) = some ⟨es.length + 1, closeFields⟩ := by
  unfold xreadOne
  rw [hs]
  simp only [cursorNum]
  rw [List.filter_append, mkEntries_filter_none es 0 es.length (by omega)]
  simp

/-- Dequeue step on a handle whose next unread entry is the tombstone. -/
theorem dequeue_reads_tombstone (q : RedisEventQueue) (s : RedisState) (w : Bool) (m : Nat)
    (hq : q.is_closed = false)
    (hread : xreadOne s q.stream_key q.last_id = some ⟨m, closeFields⟩) :
    q.dequeue_event s w = (.queueEmpty, { q with last_id := .id m, is_closed := true }) := by
  rw [dequeue_event_open q s w hq]
  exact dequeueLoop_tombstone s _ q m hread

theorem dropWhile_append_of_all {α : Type} (p : α → Bool) :
    ∀ xs ys : List α, (∀ x ∈ xs, p x = true) →
      (xs ++ ys).dropWhile p = ys.dropWhile p := by
  intro xs
  induction xs with
  | nil => intro ys _; rfl
  | cons x xs ih =>
    intro ys h
    simp only [List.cons_append, List.dropWhile]
    rw [h x (by simp)]
    exact ih ys (fun a ha => h a (by simp [ha]))

theorem rsplitColonHead_concat (pre tid : String) (h : ':' ∉ tid.data) :
    rsplitColonHead (pre ++ ":" ++ tid) = pre := by
  unfold rsplitColonHead
  have hdata : (pre ++ ":" ++ tid).data = pre.data ++ ':' :: tid.data := by
    simp [String.data_append]
  rw [hdata, if_pos (by simp)]
  have hrev : (pre.data ++ ':' :: tid.data).reverse =
      tid.data.reverse ++ ':' :: pre.data.reverse := by
    simp
  rw [hrev]
  have hall : ∀ c ∈ tid.data.reverse, (decide ¬(c = ':')) = true := by
    intro c hc
    simp only [decide_not, Bool.not_eq_true', decide_eq_false_iff_not]
    intro hcc
    subst hcc
    exact h (List.mem_reverse.mp hc)
  rw [dropWhile_append_of_all _ _ _ hall]
  have hstop : (':' :: pre.data.reverse).dropWhile (fun c => decide ¬(c = ':')) =
      ':' :: pre.data.reverse := by
    simp [List.dropWhile]
  rw [hstop]
  simp only [List.drop_succ_cons, List.drop_zero, List.reverse_reverse]

theorem mkEntries_getLast? (es : List Event) : ∀ base, es ≠ [] →
    ∃ flds, (mkEntries base es).getLast? = some ⟨base + es.length, flds⟩ := by
  induction es with
  | nil => intro base hne; exact absurd rfl hne
  | cons e es ih =>
    intro base _
    cases es with
    | nil => exact ⟨eventFields e, rfl⟩
    | cons e2 es2 =>
      obtain ⟨flds, hf⟩ := ih (base + 1) (by simp)
      refine ⟨flds, ?_⟩
      have hshape : mkEntries base (e :: e2 :: es2) =
          Entry.mk (base + 1) (eventFields e) ::
            Entry.mk (base + 2) (eventFields e2) :: mkEntries (base + 2) es2 := rfl
      have hshape2 : mkEntries (base + 1) (e2 :: es2) =
          Entry.mk (base + 2) (eventFields e2) :: mkEntries (base + 2) es2 := rfl
      rw [hshape, List.getLast?_cons_cons, ← hshape2, hf]
      have harith : base + 1 + (e2 :: es2).length = base + (e :: e2 :: es2).length := by
        simp
        omega
      rw [harith]

theorem tap_result (q : RedisEventQueue) (s : RedisState) (es : List Event)
    (hs : s q.stream_key = mkEntries 0 es) :
    (q.tap s).2.2 =
      { task_id := q.task_id,
        stream_key := rsplitColonHead q.stream_key ++ ":" ++ q.task_id,
        maxlen := q.maxlen, read_block_ms := q.read_block_ms,
        last_id := .id es.length, is_closed := false } := by
  cases es with
  | nil => simp [RedisEventQueue.tap, RedisEventQueue.init, hs, mkEntries]
  | cons e es2 =>
    obtain ⟨flds, hf⟩ := mkEntries_getLast? (e :: es2) 0 (by simp)
    simp [RedisEventQueue.tap, RedisEventQueue.init, hs, hf]

/-- Claim C1: on a fresh queue, events come back in append order, one per
call, and the next call after exhaustion raises `QueueEmpty`. -/
theorem fresh_queue_fifo (tid pre : String) (mx : Option Nat) (rb : Nat)
    (es : List Event) :
    (dequeueN es.length (RedisEventQueue.init tid pre mx rb)
        (enqueueAll (RedisEventQueue.init tid pre mx rb) RedisState.empty es)).1 =
      es.map DequeueResult.event ∧
    ((dequeueN es.length (RedisEventQueue.init tid pre mx rb)
        (enqueueAll (RedisEventQueue.init tid pre mx rb) RedisState.empty es)).2.dequeue_event
      (enqueueAll (RedisEventQueue.init tid pre mx rb) RedisState.empty es) true).1 =
      DequeueResult.queueEmpty := by
  set q := RedisEventQueue.init tid pre mx rb with hqdef
  set s := enqueueAll q RedisState.empty es with hsdef
  have hq : q.is_closed = false := rfl
  have hs : s q.stream_key = mkEntries 0 es := by
    rw [hsdef]
    have h := enqueueAll_stream q hq es RedisState.empty
    simpa [RedisState.empty] using h
  have h1 := dequeueN_drop es s es.length 0 q hq rfl hs (by omega)
  constructor
  · rw [h1]
    simp
  · rw [h1]
    have hq2 : ({ q with last_id := Cursor.id es.length } : RedisEventQueue).is_closed = false := hq
    have hs2 : s ({ q with last_id := Cursor.id es.length } : RedisEventQueue).stream_key =
        mkEntries 0 es := hs
    have h2 := dequeue_at es { q with last_id := Cursor.id es.length } s true es.length hq2 rfl hs2
    rw [List.get?_eq_none.mpr (by omega)] at h2
    rw [h2]

theorem get_concat_len {α : Type} (l : List α) (a : α) : (l ++ [a]).get? l.length = some a := by
  rw [List.get?_eq_getElem?, List.getElem?_concat_length]

theorem stream_after_extra_enqueue (q : RedisEventQueue) (s : RedisState) (e : Event)
    (es : List Event) (hq : q.is_closed = false)
    (hs : s q.stream_key = mkEntries 0 es) :
    (q.enqueue_event s false e).2.1 q.stream_key = mkEntries 0 (es ++ [e]) := by
  rw [enqueue_open_state q s e hq, xadd_self, hs, mkEntries_append es [e] 0,
    mkEntries_length]
  simp [mkEntries]

/-- Claim C4: an event appended to the stream is read back as the same parsed
event (same kind, deep-equal payload). -/
theorem enqueue_dequeue_roundtrip (q : RedisEventQueue) (s : RedisState) (w : Bool)
    (e : Event) (es : List Event)
    (hq : q.is_closed = false) (hcur : q.last_id = .id es.length)
    (hs : s q.stream_key = mkEntries 0 es) :
    (q.dequeue_event ((q.enqueue_event s false e).2.1) w).1 = .event e := by
  have hs2 := stream_after_extra_enqueue q s e es hq hs
  have h := dequeue_at (es ++ [e]) q ((q.enqueue_event s false e).2.1) w es.length hq hcur hs2
  rw [get_concat_len] at h
  rw [h]

/-- Claim C3 (amended): provided the task id contains no `':'` (so that
the tap's `rsplit`-recomputed stream key matches its source's), a tap
taken after events A were appended and before event B was appended
dequeues B first — it never observes pre-tap entries.  For a task id
containing `':'` the claim fails on the code: the tap addresses a
different stream key and never returns B at all. -/
theorem tap_sees_only_future (tid pre : String) (mx : Option Nat) (rb : Nat)
    (esA : List Event) (b : Event) (w : Bool) (hcolon : ':' ∉ tid.data) :
    ((((RedisEventQueue.init tid pre mx rb).tap
        (enqueueAll (RedisEventQueue.init tid pre mx rb) RedisState.empty esA)).2.2).dequeue_event
      (enqueueAll (RedisEventQueue.init tid pre mx rb) RedisState.empty esA) w).1 =
        DequeueResult.queueEmpty ∧
    (((RedisEventQueue.init tid pre mx rb).tap
        (enqueueAll (RedisEventQueue.init tid pre mx rb) RedisState.empty esA)).2.2).dequeue_event
      ((RedisEventQueue.init tid pre mx rb).enqueue_event
        (enqueueAll (RedisEventQueue.init tid pre mx rb) RedisState.empty esA) false b).2.1 w =
      (DequeueResult.event b,
        { ((RedisEventQueue.init tid pre mx rb).tap
            (enqueueAll (RedisEventQueue.init tid pre mx rb) RedisState.empty esA)).2.2 with
          last_id := Cursor.id (esA.length + 1) }) := by
  set q := RedisEventQueue.init tid pre mx rb with hqdef
  set s1 := enqueueAll q RedisState.empty esA with hs1def
  have hq : q.is_closed = false := rfl
  have hs1 : s1 q.stream_key = mkEntries 0 esA := by
    rw [hs1def]
    have h := enqueueAll_stream q hq esA RedisState.empty
    simpa [RedisState.empty] using h
  have hkey : rsplitColonHead q.stream_key ++ ":" ++ q.task_id = q.stream_key := by
    have h1 : q.stream_key = pre ++ ":" ++ tid := rfl
    have h2 : q.task_id = tid := rfl
    rw [h1, h2, rsplitColonHead_concat pre tid hcolon]
  have htap : (q.tap s1).2.2 = { q with last_id := Cursor.id esA.length } := by
    rw [tap_result q s1 esA hs1]
    rw [hkey, hq]
  constructor
  · rw [htap]
    have h := dequeue_at esA { q with last_id := Cursor.id esA.length } s1 w esA.length
      hq rfl hs1
    rw [List.get?_eq_none.mpr (by omega)] at h
    rw [h]
  · rw [htap]
    have hs2 : ((q.enqueue_event s1 false b).2.1) q.stream_key = mkEntries 0 (esA ++ [b]) :=
      stream_after_extra_enqueue q s1 b esA hq hs1
    have h := dequeue_at (esA ++ [b]) { q with last_id := Cursor.id esA.length }
      ((q.enqueue_event s1 false b).2.1) w esA.length hq rfl hs2
    rw [get_concat_len] at h
    rw [h]

/-- Claim C2: with the tombstone the next unread entry, a dequeue marks the
handle closed and raises instead of returning the tombstone. -/
theorem close_marks_reader_closed (q : RedisEventQueue) (s : RedisState) (w : Bool)
    (es : List Event) (hq : q.is_closed = false) (hcur : q.last_id = .id es.length)
    (hs : s q.stream_key = mkEntries 0 es) :
    q.dequeue_event (q.close s).2 w =
      (.queueEmpty, { q with last_id := .id (es.length + 1), is_closed := true }) ∧
    ((q.dequeue_event (q.close s).2 w).2).is_closed = true := by
  have hs' : (q.close s).2 q.stream_key =
      mkEntries 0 es ++ [⟨es.length + 1, closeFields⟩] := by
    show xadd s q.stream_key closeFields q.stream_key = _
    rw [xadd_self, hs, mkEntries_length]
  have hread := xreadOne_after_tombstone (q.close s).2 q.stream_key es hs'
  have h := dequeue_reads_tombstone q (q.close s).2 w (es.length + 1) hq
    (by rw [hcur]; exact hread)
  exact ⟨h, by rw [h]⟩

theorem dequeueLoop_flag (s : RedisState) : ∀ fuel q,
    (dequeueLoop s fuel q).1 ≠ DequeueResult.queueEmpty →
    (dequeueLoop s fuel q).2.is_closed = q.is_closed := by
  intro fuel
  induction fuel with
  | zero => intro q h; exact absurd rfl h
  | succ fuel ih =>
    intro q
    simp only [dequeueLoop]
    cases hread : xreadOne s q.stream_key q.last_id with
    | none => intro h; exact absurd rfl h
    | some en =>
      dsimp only
      by_cases htype : pyGet en.fields "type" = some "CLOSE"
      · rw [if_pos htype]
        intro h
        exact absurd rfl h
      · rw [if_neg htype]
        cases hpay : pyGet en.fields "payload" with
        | none => intro h; exact ih _ h
        | some raw =>
          dsimp only
          cases htag : pyGet en.fields "type" with
          | none => intro _; rfl
          | some tag =>
            dsimp only
            cases hmap : typeMap tag with
            | none => intro _; rfl
            | some k =>
              dsimp only
              cases hpo : parse_obj k (mkData raw) with
              | none => intro _; rfl
              | some e => intro _; rfl

theorem dequeue_success_flag (q : RedisEventQueue) (s : RedisState) (w : Bool)
    (h : (q.dequeue_event s w).1 ≠ DequeueResult.queueEmpty) :
    (q.dequeue_event s w).2.is_closed = false := by
  by_cases hq : q.is_closed = true
  · rw [dequeue_event_closed q s w hq] at h
    exact absurd rfl h
  · have hq' : q.is_closed = false := by simpa using hq
    rw [dequeue_event_open q s w hq'] at h ⊢
    rw [dequeueLoop_flag s _ q h, hq']

/-- Claim C6 (code bug): the `break` in `consume_all` is unreachable: a successful
yield can only come from a dequeue that left the handle open, and a
dequeue that discovers the tombstone raises instead of yielding, so the
loop never observes `is_closed()` true after a yield and spins on
`QueueEmpty` forever once the stream is closed. -/
theorem consume_all_never_terminates (s : RedisState) : ∀ fuel q,
    (consume_all_steps s fuel q).2.2 = false := by
  intro fuel
  induction fuel with
  | zero => intro q; rfl
  | succ fuel ih =>
    intro q
    simp only [consume_all_steps]
    cases hr : (q.dequeue_event s false).1 with
    | queueEmpty => exact ih _
    | event e =>
      have hflag := dequeue_success_flag q s false (by rw [hr]; simp)
      simp [hflag, ih]
    | data d =>
      have hflag := dequeue_success_flag q s false (by rw [hr]; simp)
      simp [hflag, ih]

theorem enqueue_handle_frame (q : RedisEventQueue) (s : RedisState) (fail : Bool)
    (e : Event) : (q.enqueue_event s fail e).1 = q := by
  unfold RedisEventQueue.enqueue_event
  split
  · rfl
  · split <;> rfl

/-- Claim C5: the CLOSED state is terminal for a handle, appends never close a handle,
and no operation reopens one. -/
theorem closed_handle_terminal (q : RedisEventQueue) (s : RedisState) (w fail : Bool)
    (e : Event) :
    (q.is_closed = true → q.dequeue_event s w = (.queueEmpty, q)) ∧
    (q.enqueue_event s fail e).1 = q ∧
    (q.tap s).1 = q ∧
    (q.close s).1 = q ∧
    (q.is_closed = true → q.enqueue_event s fail e = (q, s, .ok ())) ∧
    (q.is_closed = false → ((q.enqueue_event s fail e).1).is_closed = false) := by
  refine ⟨fun h => dequeue_event_closed q s w h, enqueue_handle_frame q s fail e,
    rfl, rfl, fun h => ?_, fun h => ?_⟩
  · simp [RedisEventQueue.enqueue_event, h]
  · rw [enqueue_handle_frame q s fail e, h]

/-- Claim C7 (amended): a `RedisError` inside the `XADD` of `enqueue_event` is
caught and logged; the call returns normally and the storage state is
unchanged — the failure is not re-raised to the caller. -/
theorem enqueue_storage_error_swallowed (q : RedisEventQueue) (s : RedisState)
    (e : Event) (hq : q.is_closed = false) :
    q.enqueue_event s true e = (q, s, .ok ()) := by
  simp [RedisEventQueue.enqueue_event, hq]

/-- Claim C8 (amended): an entry with a missing payload is skipped and the read
continues with the next entry; an entry whose type tag is not in
`_TYPE_MAP` is returned to the caller as raw data, not skipped; and an
entry with a known type tag whose payload is rejected by the model
(`ValidationError`) is likewise returned to the caller as raw data, not
skipped. -/
theorem malformed_entry_handling :
    (∀ (q : RedisEventQueue) (s : RedisState) (w : Bool) (tag : String) (e : Event),
      q.is_closed = false → q.last_id = .id 0 → tag ≠ "CLOSE" →
      s q.stream_key = [⟨1, [("type", tag)]⟩, ⟨2, eventFields e⟩] →
      q.dequeue_event s w = (.event e, { q with last_id := .id 2 })) ∧
    (∀ (q : RedisEventQueue) (s : RedisState) (w : Bool) (m : Nat)
       (flds : List (String × String)) (tag raw : String),
      q.is_closed = false →
      xreadOne s q.stream_key q.last_id = some ⟨m, flds⟩ →
      pyGet flds "type" = some tag → tag ≠ "CLOSE" → typeMap tag = none →
      pyGet flds "payload" = some raw →
      q.dequeue_event s w = (.data (mkData raw), { q with last_id := .id m })) ∧
    (∀ (q : RedisEventQueue) (s : RedisState) (w : Bool) (m : Nat)
       (flds : List (String × String)) (k : EventKind) (raw : String),
      q.is_closed = false →
      xreadOne s q.stream_key q.last_id = some ⟨m, flds⟩ →
      pyGet flds "type" = some k.name →
      pyGet flds "payload" = some raw →
      parse_obj k (mkData raw) = none →
      q.dequeue_event s w = (.data (mkData raw), { q with last_id := .id m })) := by
  refine ⟨?_, ?_, ?_⟩
  · intro q s w tag e hq hcur hne hs
    rw [dequeue_event_open q s w hq, hs]
    show dequeueLoop s (2 + 1) q = _
    have hread1 : xreadOne s q.stream_key q.last_id = some ⟨1, [("type", tag)]⟩ := by
      unfold xreadOne
      rw [hs, hcur]
      simp [cursorNum]
    rw [dequeueLoop_skip s 2 q 1 [("type", tag)] hread1 (by simp [pyGet, hne])
      (by simp [pyGet])]
    have hread2 : xreadOne s ({ q with last_id := Cursor.id 1 } :
        RedisEventQueue).stream_key ({ q with last_id := Cursor.id 1 } :
        RedisEventQueue).last_id = some ⟨2, eventFields e⟩ := by
      unfold xreadOne
      rw [show ({ q with last_id := Cursor.id 1 } :
        RedisEventQueue).stream_key = q.stream_key from rfl, hs]
      simp [cursorNum]
    show dequeueLoop s (1 + 1) { q with last_id := Cursor.id 1 } = _
    rw [dequeueLoop_event s 1 { q with last_id := Cursor.id 1 } e 2 hread2]
  · intro q s w m flds tag raw hq hread htag hne hmap hpay
    rw [dequeue_event_open q s w hq]
    exact dequeueLoop_unknown s _ q m flds tag raw hread htag hne hmap hpay
  · intro q s w m flds k raw hq hread htag hpay hpo
    rw [dequeue_event_open q s w hq]
    exact dequeueLoop_invalid s _ q m flds k raw hread htag hpay hpo

theorem pyGet_append_none {α : Type} : ∀ (l : List (String × α)) (k : String) (v : α),
    pyGet l k = none → pyGet (l ++ [(k, v)]) k = some v := by
  intro l
  induction l with
  | nil => intro k v _; simp [pyGet]
  | cons p tl ih =>
    intro k v h
    obtain ⟨k', v'⟩ := p
    simp only [pyGet] at h
    by_cases hk : k' = k
    · rw [if_pos hk] at h
      exact absurd h (by simp)
    · rw [if_neg hk] at h
      show pyGet ((k', v') :: (tl ++ [(k, v)])) k = some v
      simp only [pyGet]
      rw [if_neg hk]
      exact ih k v h

theorem pyGet_none_no_entry {α : Type} : ∀ (l : List (String × α)) (k : String),
    pyGet l k = none → l.filter (fun p => decide (p.1 = k)) = [] := by
  intro l
  induction l with
  | nil => intro k _; rfl
  | cons p tl ih =>
    intro k h
    obtain ⟨k', v'⟩ := p
    by_cases hk : k' = k
    · simp [pyGet, hk] at h
    · simp only [pyGet] at h
      rw [if_neg hk] at h
      simp only [List.filter]
      rw [decide_eq_false (by simpa using hk)]
      exact ih k h

/-- Claim C9: the operation `create_or_tap` registers exactly one canonical queue for an
unregistered task id, and every later call returns a tap of that same
queue while leaving the registry unchanged. -/
theorem create_or_tap_idempotent (m : RedisQueueManager) (s s' : RedisState)
    (tid : String) (h : pyGet m.task_queue tid = none) :
    (m.create_or_tap s tid).2 = RedisEventQueue.init tid m.streamPre none 500 ∧
    (m.create_or_tap s tid).1.task_queue =
      m.task_queue ++ [(tid, (m.create_or_tap s tid).2)] ∧
    ((m.create_or_tap s tid).1.task_queue.filter
      (fun p => decide (p.1 = tid))).length = 1 ∧
    (m.create_or_tap s tid).1.create_or_tap s' tid =
      ((m.create_or_tap s tid).1, (((m.create_or_tap s tid).2).tap s').2.2) := by
  have h1 : m.create_or_tap s tid =
      ({ m with task_queue :=
          m.task_queue ++ [(tid, RedisEventQueue.init tid m.streamPre none 500)] },
        RedisEventQueue.init tid m.streamPre none 500) := by
    unfold RedisQueueManager.create_or_tap
    rw [h]
  refine ⟨by rw [h1], by rw [h1], ?_, ?_⟩
  · rw [h1]
    simp only [List.filter_append, pyGet_none_no_entry m.task_queue tid h]
    simp
  · rw [h1]
    unfold RedisQueueManager.create_or_tap
    rw [pyGet_append_none m.task_queue tid _ h]

/-- Claim C10 (amended): the operation `tap` modifies neither the source handle nor the
storage, the new handle starts open, and — whenever the task id contains
no `':'` separator, so that `rsplit` recovers the configured prefix — the
new handle shares the source's stream key. -/
theorem tap_frame (q : RedisEventQueue) (s : RedisState) (pre : String)
    (hkey : q.stream_key = pre ++ ":" ++ q.task_id) (hcolon : ':' ∉ q.task_id.data) :
    (q.tap s).1 = q ∧ (q.tap s).2.1 = s ∧ ((q.tap s).2.2).is_closed = false ∧
    ((q.tap s).2.2).stream_key = q.stream_key := by
  refine ⟨rfl, rfl, rfl, ?_⟩
  show rsplitColonHead q.stream_key ++ ":" ++ q.task_id = q.stream_key
  rw [hkey, rsplitColonHead_concat pre q.task_id hcolon]

/-! ## Concrete instances -/

/-- A message event carrying `{"text": txt}`, as in the repository's
tests. -/
def msgEvent (txt : String) : Event :=
  ⟨.message, .cons "text".data (.str txt.data) .nil⟩

/-- The claim C3 is false on the code as universally stated: for the
task id `"a:b"` (prefix `"p"`), append event A, call `tap()`, then
append event B — the tap's first dequeue raises `QueueEmpty` and in
particular does not return B, because `rsplit(':', 1)` mis-derives the
tap's stream key (`"p:a:a:b"` instead of `"p:a:b"`), so the tap reads a
stream that receives no entries. -/
theorem tap_misses_future_event_on_colon_task_id :
    ((((RedisEventQueue.init "a:b" "p" none 500).tap
        ((RedisEventQueue.init "a:b" "p" none 500).enqueue_event RedisState.empty false
          (msgEvent "a")).2.1).2.2).dequeue_event
      ((RedisEventQueue.init "a:b" "p" none 500).enqueue_event
        ((RedisEventQueue.init "a:b" "p" none 500).enqueue_event RedisState.empty false
          (msgEvent "a")).2.1 false (msgEvent "b")).2.1 true).1 =
      DequeueResult.queueEmpty ∧
    ((((RedisEventQueue.init "a:b" "p" none 500).tap
        ((RedisEventQueue.init "a:b" "p" none 500).enqueue_event RedisState.empty false
          (msgEvent "a")).2.1).2.2).dequeue_event
      ((RedisEventQueue.init "a:b" "p" none 500).enqueue_event
        ((RedisEventQueue.init "a:b" "p" none 500).enqueue_event RedisState.empty false
          (msgEvent "a")).2.1 false (msgEvent "b")).2.1 true).1 ≠
      DequeueResult.event (msgEvent "b") := by
  decide

theorem close_marks_reader_closed_witness :
    (RedisEventQueue.init "t2" "a2a:task" none 500).dequeue_event
        ((RedisEventQueue.init "t2" "a2a:task" none 500).close RedisState.empty).2 true =
      (DequeueResult.queueEmpty,
        { RedisEventQueue.init "t2" "a2a:task" none 500 with
            last_id := Cursor.id 1, is_closed := true }) ∧
    (((RedisEventQueue.init "t2" "a2a:task" none 500).dequeue_event
        ((RedisEventQueue.init "t2" "a2a:task" none 500).close
          RedisState.empty).2 true).2).is_closed = true :=
  close_marks_reader_closed (RedisEventQueue.init "t2" "a2a:task" none 500)
    RedisState.empty true [] rfl rfl rfl

theorem tap_sees_only_future_witness :
    (((RedisEventQueue.init "t1" "a2a:task" none 500).tap
        (enqueueAll (RedisEventQueue.init "t1" "a2a:task" none 500) RedisState.empty
          [msgEvent "a"])).2.2).dequeue_event
      ((RedisEventQueue.init "t1" "a2a:task" none 500).enqueue_event
        (enqueueAll (RedisEventQueue.init "t1" "a2a:task" none 500) RedisState.empty
          [msgEvent "a"]) false (msgEvent "b")).2.1 true =
      (DequeueResult.event (msgEvent "b"),
        { ((RedisEventQueue.init "t1" "a2a:task" none 500).tap
            (enqueueAll (RedisEventQueue.init "t1" "a2a:task" none 500) RedisState.empty
              [msgEvent "a"])).2.2 with last_id := Cursor.id 2 }) :=
  (tap_sees_only_future "t1" "a2a:task" none 500 [msgEvent "a"] (msgEvent "b") true
    (by decide)).2

theorem enqueue_dequeue_roundtrip_witness :
    ((RedisEventQueue.init "t1" "a2a:task" none 500).dequeue_event
        ((RedisEventQueue.init "t1" "a2a:task" none 500).enqueue_event RedisState.empty
          false (msgEvent "hello")).2.1 true).1 =
      DequeueResult.event (msgEvent "hello") :=
  enqueue_dequeue_roundtrip (RedisEventQueue.init "t1" "a2a:task" none 500)
    RedisState.empty true (msgEvent "hello") [] rfl rfl rfl

theorem closed_handle_terminal_witness :
    ({ RedisEventQueue.init "t5" "a2a:task" none 500 with is_closed := true } :
        RedisEventQueue).dequeue_event RedisState.empty true =
      (DequeueResult.queueEmpty,
        { RedisEventQueue.init "t5" "a2a:task" none 500 with is_closed := true }) :=
  (closed_handle_terminal
    { RedisEventQueue.init "t5" "a2a:task" none 500 with is_closed := true }
    RedisState.empty true false (msgEvent "x")).1 rfl

/-- The claim C7 is false on the code: with the `XADD` raising
`RedisError`, `enqueue_event` still returns normally (nothing is
re-raised) and the event is silently lost. -/
theorem enqueue_storage_error_not_raised :
    (RedisEventQueue.init "t7" "a2a:task" none 500).enqueue_event RedisState.empty true
      (msgEvent "hello") =
      (RedisEventQueue.init "t7" "a2a:task" none 500, RedisState.empty,
        PyResult.ok ()) := rfl

theorem enqueue_storage_error_swallowed_witness :
    (RedisEventQueue.init "t7b" "a2a:task" none 500).enqueue_event RedisState.empty true
      (msgEvent "hello") =
      (RedisEventQueue.init "t7b" "a2a:task" none 500, RedisState.empty,
        PyResult.ok ()) :=
  enqueue_storage_error_swallowed (RedisEventQueue.init "t7b" "a2a:task" none 500)
    RedisState.empty (msgEvent "hello") rfl

/-- The claim C8 is false on the code: an entry whose type tag is not a
known event kind is returned to the caller as raw data by
`dequeue_event`, not logged-and-skipped. -/
theorem unknown_kind_entry_surfaced :
    ((RedisEventQueue.init "t8" "a2a:task" none 500).dequeue_event
      (xadd RedisState.empty "a2a:task:t8" [("type", "Bogus"), ("payload", "{}")])
      true).1 =
      DequeueResult.data (Data.json (Json.obj JsonFields.nil)) := by decide

theorem malformed_entry_handling_witness :
    (RedisEventQueue.init "t8b" "a2a:task" none 500).dequeue_event
      (fun k => if k = "a2a:task:t8b" then
        [⟨1, [("type", "Bogus")]⟩, ⟨2, eventFields (msgEvent "ok")⟩] else []) true =
      (DequeueResult.event (msgEvent "ok"),
        { RedisEventQueue.init "t8b" "a2a:task" none 500 with last_id := Cursor.id 2 }) :=
  malformed_entry_handling.1 (RedisEventQueue.init "t8b" "a2a:task" none 500)
    (fun k => if k = "a2a:task:t8b" then
      [⟨1, [("type", "Bogus")]⟩, ⟨2, eventFields (msgEvent "ok")⟩] else [])
    true "Bogus" (msgEvent "ok") rfl rfl (by decide) (by decide)

theorem create_or_tap_idempotent_witness :
    ((RedisQueueManager.mk "a2a:task" []).create_or_tap RedisState.empty "t9").2 =
      RedisEventQueue.init "t9" "a2a:task" none 500 :=
  (create_or_tap_idempotent (RedisQueueManager.mk "a2a:task" []) RedisState.empty
    RedisState.empty "t9" rfl).1

/-- The claim C10 is false on the code as universally stated: a task id
containing `':'` makes `rsplit(':', 1)` cut the stream key at the wrong
place, so the tap points at a different stream key than its source. -/
theorem tap_key_differs_on_colon_task_id :
    (((RedisEventQueue.init "a:b" "p" none 500).tap RedisState.empty).2.2).stream_key ≠
      (RedisEventQueue.init "a:b" "p" none 500).stream_key := by decide

theorem tap_frame_witness :
    (((RedisEventQueue.init "t10" "a2a:task" none 500).tap
        RedisState.empty).2.2).stream_key =
      (RedisEventQueue.init "t10" "a2a:task" none 500).stream_key :=
  (tap_frame (RedisEventQueue.init "t10" "a2a:task" none 500) RedisState.empty
    "a2a:task" rfl (by decide)).2.2.2
